import Mathlib

/-
  Verification development for the stacked-react-router repository.

  Shallow embedding of:
  - the history-tracker push/replace wrappers (history-tracker source file),
  - the location locker (src/location-locker.tsx),
  - the asynchronous navigation facade (src/advanced-history.tsx),
  - the stack router transition logic (src/stack-router.tsx).

  The native history stack itself is an external collaborator (the `history`
  npm package); it is modelled from spec section 6 as a zipper
  (back entries, current entry, forward entries).  A primitive back/forward
  move at the boundary of the stack produces no change notification, so an
  operation awaiting that notification never resolves (spec section 5
  acknowledges this liveness risk); such runs are modelled as `none`.
-/

/-- JS primitive values as they occur in per-entry state blobs.  Object-valued
state fields would compare by reference in JS and are out of scope. -/
inductive Prim where
  | undef
  | null
  | str (s : String)
  | num (n : Int)
  | bool (b : Bool)
deriving DecidableEq

/-- The value stored under `state.previousLoc`.  The push wrapper builds it as
a spread of the whole previous location with `state` explicitly set to
undefined, so `pathname` and `key` are always present while `search` and
`hash` are `Option` to record whether those JS properties exist at all. -/
structure PrevLoc where
  pathname : String
  key : String
  search : Option String
  hash : Option String
deriving DecidableEq

/-- A history entry's state blob: caller-provided primitive fields plus the
managed `previousLoc` property (kept apart from the plain fields). -/
structure StateObj where
  fields : List (String × Prim)
  previousLoc : Option PrevLoc
deriving DecidableEq

/-- A history location / navigation entry (history v4 `Location`). -/
structure Location where
  pathname : String
  search : String
  hash : String
  key : String
  state : Option StateObj
deriving DecidableEq

/-- Result of `(location.state || {})[k]`: a missing state object or a missing
key both read as undefined. -/
def statePrimLookup (st : Option StateObj) (k : String) : Prim :=
  match st with
  | none => Prim.undef
  | some s =>
    match s.fields.lookup k with
    | some v => v
    | none => Prim.undef

/-- Truthiness of `location.state?.previousLoc` (an object is truthy exactly
when present). -/
def hasPrevLoc (l : Location) : Bool :=
  match l.state with
  | none => false
  | some s => s.previousLoc.isSome

/-- JS truthiness of a primitive value. -/
def primTruthy : Prim → Bool
  | Prim.undef => false
  | Prim.null => false
  | Prim.str s => !(s == "")
  | Prim.num n => !(n == 0)
  | Prim.bool b => b

/-- A `Partial<Location>` argument: each field may be absent.  `search` and
`hash` are carried but never read by `locationPartialMatches` (the source
leaves them as TODOs). -/
structure LocQuery where
  key : Option String
  pathname : Option String
  search : Option String
  hash : Option String
  state : Option (List (String × Prim))
deriving DecidableEq

/-- Transcription of `locationPartialMatches` (advanced-history source,
lines 302-339).  Note the `partial.key && ...` guard: JS truthiness means an
empty-string key skips the key check, while the pathname check uses
`!= null` and so does fire on an empty-string pathname. -/
def locationPartialMatches (location : Location) (q : LocQuery) : Bool :=
  if (match q.key with
      | some k => !(k == "") && !(location.key == k)
      | none => false) then false
  else if (match q.pathname with
      | some p => !(p == location.pathname)
      | none => false) then false
  else match q.state with
    | some qs => qs.all (fun kv => statePrimLookup location.state kv.1 == kv.2)
    | none => true

/-- Claim C6's matching relation exactly as the claim states it: a present key
must equal, a present pathname must equal, every key present in the partial
state must equal the corresponding value; search and hash unchecked. -/
def locationPartialMatchesClaimed (location : Location) (q : LocQuery) : Bool :=
  (match q.key with
   | some k => location.key == k
   | none => true)
  && (match q.pathname with
      | some p => p == location.pathname
      | none => true)
  && (match q.state with
      | some qs => qs.all (fun kv => statePrimLookup location.state kv.1 == kv.2)
      | none => true)

/-- Claim C6 amended: a present key is only enforced when it is non-empty
(JS truthiness of the `partial.key &&` guard). -/
def locationPartialMatchesAmended (location : Location) (q : LocQuery) : Bool :=
  (match q.key with
   | some k => k == "" || location.key == k
   | none => true)
  && (match q.pathname with
      | some p => p == location.pathname
      | none => true)
  && (match q.state with
      | some qs => qs.all (fun kv => statePrimLookup location.state kv.1 == kv.2)
      | none => true)

/-- A `LocationDescriptor` object argument of push/replace. -/
structure LocDescriptor where
  pathname : Option String
  search : Option String
  hash : Option String
  state : Option StateObj
deriving DecidableEq

/-- The two JS call shapes of `history.push` / `history.replace`:
`push(locationObject)` or `push(pathString, state)`. -/
inductive PushArgs where
  | objPath (d : LocDescriptor)
  | strPath (path : String) (state : Option StateObj)
deriving DecidableEq

/-- The state blob the native push/replace will store for the new entry,
extracted from the (possibly rewritten) arguments. -/
def stateOfPushArgs : PushArgs → Option StateObj
  | PushArgs.objPath d => d.state
  | PushArgs.strPath _ st => st

/-- `{ ...this._lastLocation, state: void 0 }`: the spread copies every own
property of the previous location (pathname, search, hash, key) and then sets
`state` to undefined.  There is no `state` field in `PrevLoc`, which models
the "state dropped" part. -/
def prevLocSnapshot (l : Location) : PrevLoc :=
  { pathname := l.pathname,
    key := l.key,
    search := some l.search,
    hash := some l.hash }

/-- The history-tracker push wrapper (unnamed source part, lines 52-75):
in both argument shapes the caller state is spread and `previousLoc` is set
to the snapshot of the tracked last location, overriding any caller-supplied
`previousLoc`. -/
def wrappedPushArgs (lastLocation : Location) (a : PushArgs) : PushArgs :=
  match a with
  | PushArgs.objPath d =>
    PushArgs.objPath
      { d with state := some {
          fields := (d.state.map (fun s => s.fields)).getD [],
          previousLoc := some (prevLocSnapshot lastLocation) } }
  | PushArgs.strPath p st =>
    PushArgs.strPath p (some {
      fields := (st.map (fun s => s.fields)).getD [],
      previousLoc := some (prevLocSnapshot lastLocation) })

/-- The history-tracker replace wrapper (unnamed source part, lines 28-50):
if the tracked last location's state carries a truthy `previousLoc`, it is
forwarded into the new entry's state (overriding a caller-supplied one);
otherwise the arguments pass through unchanged. -/
def wrappedReplaceArgs (lastLocation : Location) (a : PushArgs) : PushArgs :=
  match lastLocation.state.bind (fun s => s.previousLoc) with
  | none => a
  | some pl =>
    match a with
    | PushArgs.objPath d =>
      PushArgs.objPath
        { d with state := some {
            fields := (d.state.map (fun s => s.fields)).getD [],
            previousLoc := some pl } }
    | PushArgs.strPath p st =>
      PushArgs.strPath p (some {
        fields := (st.map (fun s => s.fields)).getD [],
        previousLoc := some pl })

/-
  The native history stack, modelled from spec section 6: a zipper with the
  entries before the cursor (`back`, nearest first), the active entry (`cur`)
  and the entries after the cursor (`fwd`, nearest first).
-/

/-- Model of the external native history stack (spec section 6). -/
structure History where
  back : List Location
  cur : Location
  fwd : List Location
deriving DecidableEq

/-- Native push: truncates the forward entries and appends the new entry. -/
def pushNative (h : History) (e : Location) : History :=
  { back := h.cur :: h.back, cur := e, fwd := [] }

/-- Native replace: rewrites the active entry in place. -/
def replaceNative (h : History) (e : Location) : History :=
  { h with cur := e }

/-- The oldest native entry of the stack. -/
def bottomEntry (h : History) : Location :=
  h.back.getLastD h.cur

/-- Events observable around a facade operation: lock acquisition, lock
release, and an issued native mutation. -/
inductive NavEvent where
  | lock
  | unlock
  | mutation
deriving DecidableEq

/-- A trace is all mutations: the operation never touches the lock. -/
def noLockEvents (evs : List NavEvent) : Bool :=
  evs.all (fun e => e == NavEvent.mutation)

/-- The trace of an operation that runs under exactly one lock acquisition
spanning its whole duration: it opens with the single lock acquisition and
closes with the single release (the release is the closure returned by that
same acquisition in `navigate`). -/
def lockSpanning (tr : List NavEvent) : Bool :=
  (tr.count NavEvent.lock == 1)
  && (tr.count NavEvent.unlock == 1)
  && (tr.head? == some NavEvent.lock)
  && (tr.getLast? == some NavEvent.unlock)

/-- `navigate` (advanced-history source, lines 160-166): acquire the lock, run
the body, release the same lock once the body's promise resolves.  If the
body never resolves the release never runs. -/
def navigate {α : Type} (body : History → List NavEvent × Option α)
    (h : History) : List NavEvent × Option α :=
  match body h with
  | (evs, some v) => (NavEvent.lock :: evs ++ [NavEvent.unlock], some v)
  | (evs, none) => (NavEvent.lock :: evs, none)

/-- `goBackAsync` (advanced-history source, lines 137-147): with
`preventLeavingApp` set and no `previousLoc` on the active entry, resolve
false without mutating; otherwise issue one native goBack and resolve true on
its notification (no notification ever arrives at the bottom of the stack). -/
def goBackAsync (h : History) (preventLeavingApp : Bool) :
    List NavEvent × Option (Bool × History) :=
  if preventLeavingApp && !(hasPrevLoc h.cur) then ([], some (false, h))
  else match h.back with
    | [] => ([NavEvent.mutation], none)
    | p :: rest => ([NavEvent.mutation], some (true, ⟨rest, p, h.cur :: h.fwd⟩))

/-- `goForwardAsync` (advanced-history source, lines 131-135): one native
goForward, always resolving true when it resolves at all. -/
def goForwardAsync (h : History) : List NavEvent × Option (Bool × History) :=
  match h.fwd with
  | [] => ([NavEvent.mutation], none)
  | nxt :: rest => ([NavEvent.mutation], some (true, ⟨h.cur :: h.back, nxt, rest⟩))

/-- Native cursor move by `n` (history `go`).  Out-of-range moves produce no
notification. -/
def goN (h : History) (n : Int) : Option History :=
  let entries := h.back.reverse ++ h.cur :: h.fwd
  let idx : Int := (h.back.length : Int) + n
  if 0 ≤ idx ∧ idx < (entries.length : Int) then
    let i := idx.toNat
    some ⟨(entries.take i).reverse, entries.getD i h.cur, entries.drop (i + 1)⟩
  else none

/-- `goAsync` via `promisify(history, go)`: issues the mutation, no lock. -/
def goAsync (h : History) (n : Int) : List NavEvent × Option History :=
  ([NavEvent.mutation], goN h n)

/-- `pushAsync` (advanced-history source, lines 122-129): one native push,
resolving on its notification.  Key assignment for the created entry is
abstracted: the entry to create is passed in whole. -/
def pushAsync (h : History) (e : Location) : List NavEvent × Option History :=
  ([NavEvent.mutation], some (pushNative h e))

/-- `replaceAsync` via `promisify(history, replace)`. -/
def replaceAsync (h : History) (e : Location) : List NavEvent × Option History :=
  ([NavEvent.mutation], some (replaceNative h e))

/-- Loop body of `goBackToKeyImpl` (advanced-history source, lines 221-231),
unrolled over the zipper: stop when the active key matches; resolve false
when the guarded `goBackAsync(true)` refuses (no `previousLoc`); hang when a
goBack is issued at the bottom of the stack. -/
def goBackToKeyImplAux (back : List Location) (cur : Location)
    (fwd : List Location) (key : String) : List NavEvent × Option (Bool × History) :=
  if cur.key == key then ([], some (true, ⟨back, cur, fwd⟩))
  else if !(hasPrevLoc cur) then ([], some (false, ⟨back, cur, fwd⟩))
  else match back with
    | [] => ([NavEvent.mutation], none)
    | p :: rest =>
      let r := goBackToKeyImplAux rest p (cur :: fwd) key
      (NavEvent.mutation :: r.1, r.2)

/-- `goBackToKeyImpl` on a history value. -/
def goBackToKeyImpl (h : History) (key : String) :
    List NavEvent × Option (Bool × History) :=
  goBackToKeyImplAux h.back h.cur h.fwd key

/-- Loop body of `goBackToMatchImpl` (advanced-history source,
lines 188-198): same loop with a caller-supplied matcher. -/
def goBackToMatchImplAux (back : List Location) (cur : Location)
    (fwd : List Location) (m : Location → Bool) : List NavEvent × Option (Bool × History) :=
  if m cur then ([], some (true, ⟨back, cur, fwd⟩))
  else if !(hasPrevLoc cur) then ([], some (false, ⟨back, cur, fwd⟩))
  else match back with
    | [] => ([NavEvent.mutation], none)
    | p :: rest =>
      let r := goBackToMatchImplAux rest p (cur :: fwd) m
      (NavEvent.mutation :: r.1, r.2)

/-- `goBackToMatchImpl` on a history value. -/
def goBackToMatchImpl (h : History) (m : Location → Bool) :
    List NavEvent × Option (Bool × History) :=
  goBackToMatchImplAux h.back h.cur h.fwd m

/-- Loop body of `goForwardToKeyImpl` (advanced-history source,
lines 233-243): step forward until the active key equals `key`; hang if the
forward entries run out first. -/
def goForwardToKeyImplAux (back : List Location) (cur : Location)
    (fwd : List Location) (key : String) : List NavEvent × Option (Bool × History) :=
  if cur.key == key then ([], some (true, ⟨back, cur, fwd⟩))
  else match fwd with
    | [] => ([NavEvent.mutation], none)
    | nxt :: rest =>
      let r := goForwardToKeyImplAux (cur :: back) nxt rest key
      (NavEvent.mutation :: r.1, r.2)

/-- `goForwardToKeyImpl` on a history value. -/
def goForwardToKeyImpl (h : History) (key : String) :
    List NavEvent × Option (Bool × History) :=
  goForwardToKeyImplAux h.back h.cur h.fwd key

/-- The final position after the composite rewind restores the start: the
starting history, plus one pushed fallback entry when one was supplied. -/
def applyFallback (h : History) (fb : Option Location) : History :=
  match fb with
  | none => h
  | some fe => pushNative h fe

/-- Body of `goBackToKey` (advanced-history source, lines 200-219): remember
the starting key, rewind; on success resolve true; on failure replay forward
to the starting key, push the fallback if given, resolve false. -/
def goBackToKeyBody (key : String) (fb : Option Location) (h : History) :
    List NavEvent × Option (Bool × History) :=
  match goBackToKeyImpl h key with
  | (evs, none) => (evs, none)
  | (evs, some (true, h1)) => (evs, some (true, h1))
  | (evs, some (false, h1)) =>
    match goForwardToKeyImpl h1 h.cur.key with
    | (evs2, none) => (evs ++ evs2, none)
    | (evs2, some (_, h2)) =>
      match fb with
      | none => (evs ++ evs2, some (false, h2))
      | some fe => (evs ++ evs2 ++ [NavEvent.mutation], some (false, pushNative h2 fe))

/-- `goBackToKey`: the body run under `navigate`. -/
def goBackToKey (h : History) (key : String) (fb : Option Location) :
    List NavEvent × Option (Bool × History) :=
  navigate (goBackToKeyBody key fb) h

/-- Body of `goBackToMatch` (advanced-history source, lines 168-186). -/
def goBackToMatchBody (m : Location → Bool) (fb : Option Location) (h : History) :
    List NavEvent × Option (Bool × History) :=
  match goBackToMatchImpl h m with
  | (evs, none) => (evs, none)
  | (evs, some (true, h1)) => (evs, some (true, h1))
  | (evs, some (false, h1)) =>
    match goForwardToKeyImpl h1 h.cur.key with
    | (evs2, none) => (evs ++ evs2, none)
    | (evs2, some (_, h2)) =>
      match fb with
      | none => (evs ++ evs2, some (false, h2))
      | some fe => (evs ++ evs2 ++ [NavEvent.mutation], some (false, pushNative h2 fe))

/-- `goBackToMatch`: the body run under `navigate`. -/
def goBackToMatch (h : History) (m : Location → Bool) (fb : Option Location) :
    List NavEvent × Option (Bool × History) :=
  navigate (goBackToMatchBody m fb) h

/-- The target argument of `goBackUntil`: a partial location or a predicate. -/
inductive LocTarget where
  | query (q : LocQuery)
  | pred (f : Location → Bool)

/-- The target test at the head of `goBackUntilImpl` (advanced-history
source, lines 270-276). -/
def targetMatches (t : LocTarget) (l : Location) : Bool :=
  match t with
  | LocTarget.pred f => f l
  | LocTarget.query q => locationPartialMatches l q

/-- Build the location that `history.replace(fallback)` would create from a
partial descriptor (only used on the dead exhaustion branch below). -/
def locationOfQuery (q : LocQuery) : Location :=
  { pathname := q.pathname.getD "/",
    search := q.search.getD "",
    hash := q.hash.getD "",
    key := q.key.getD "",
    state := none }

/-- The fallback defaulting of `goBackUntilImpl` (advanced-history source,
lines 280-286): with no fallback, a partial-location target is reused as the
fallback, a predicate target defaults to pathname "/". -/
def goBackUntilDefaultFallback (t : LocTarget) (fb : Option LocQuery) : LocQuery :=
  match fb with
  | some f => f
  | none =>
    match t with
    | LocTarget.query l => l
    | LocTarget.pred _ => ⟨none, some "/", none, none, none⟩

/-- The exhaustion branch of `goBackUntilImpl` (advanced-history source,
lines 279-291): replace the entry reached so far with the (defaulted)
fallback.  This branch is unreachable in the source: it runs only when
`goBackAsync(history)` resolves false, but without `preventLeavingApp` that
call always resolves true (see goBackAsync_unguarded_true). -/
def goBackUntilExhausted (h : History) (t : LocTarget) (fb : Option LocQuery) : History :=
  replaceNative h (locationOfQuery (goBackUntilDefaultFallback t fb))

/-- Loop of `goBackUntilImpl` (advanced-history source, lines 265-294),
unrolled over the zipper.  The recursive step is the `success` case of the
unguarded `goBackAsync`; at the bottom of the stack the issued goBack never
notifies, so the operation never resolves and the exhaustion branch
(`goBackUntilExhausted`) is never taken. -/
def goBackUntilImplAux (back : List Location) (cur : Location)
    (fwd : List Location) (t : LocTarget) (fb : Option LocQuery) :
    List NavEvent × Option History :=
  if targetMatches t cur then ([], some ⟨back, cur, fwd⟩)
  else match back with
    | [] => ([NavEvent.mutation], none)
    | p :: rest =>
      let r := goBackUntilImplAux rest p (cur :: fwd) t fb
      (NavEvent.mutation :: r.1, r.2)

/-- `goBackUntilImpl` on a history value. -/
def goBackUntilImpl (h : History) (t : LocTarget) (fb : Option LocQuery) :
    List NavEvent × Option History :=
  goBackUntilImplAux h.back h.cur h.fwd t fb

/-- `goBackUntil` (advanced-history source, lines 256-263): the legacy rewind
run under `navigate`. -/
def goBackUntil (h : History) (t : LocTarget) (fb : Option LocQuery) :
    List NavEvent × Option History :=
  navigate (fun h0 => goBackUntilImpl h0 t fb) h

/-- The states visited by the guarded rewind loop: the start, then each state
reached by a back-step taken while the active entry carries a `previousLoc`
and a native predecessor exists. -/
def backStatesAux (back : List Location) (cur : Location)
    (fwd : List Location) : List History :=
  match back with
  | [] => [⟨[], cur, fwd⟩]
  | p :: rest =>
    ⟨p :: rest, cur, fwd⟩ ::
      (if hasPrevLoc cur then backStatesAux rest p (cur :: fwd) else [])

/-- `backStates` on a history value. -/
def backStates (h : History) : List History :=
  backStatesAux h.back h.cur h.fwd

/-
  The location locker (src/location-locker.tsx).  Tokens stand for the
  one-shot unlock closures returned by `lock()`: the i-th call to `lock`
  returns token i, and a token's `dead` flag survives in `dead`.
-/

/-- State of the location locker: the `lockCount` ref, the `locationOverride`
state, the number of unlock closures handed out so far, and the tokens whose
closure has already run once. -/
structure Locker where
  lockCount : Nat
  override : Option Location
  issued : Nat
  dead : List Nat
deriving DecidableEq

/-- The locker before any lock call. -/
def lockerInit : Locker :=
  { lockCount := 0, override := none, issued := 0, dead := [] }

/-- One `lock()` call (location-locker source, lines 29-39): increment the
count; on the 0 to 1 transition capture the live location as the frozen
snapshot, throwing (`none`) if a snapshot already exists.  Returns the new
unlock token. -/
def lockStep (live : Location) (s : Locker) : Option (Nat × Locker) :=
  let c := s.lockCount + 1
  if c = 1 then
    match s.override with
    | some _ => none
    | none => some (s.issued,
        { lockCount := c, override := some live, issued := s.issued + 1, dead := s.dead })
  else
    some (s.issued, { s with lockCount := c, issued := s.issued + 1 })

/-- One call of the unlock closure for token `tok` (location-locker source,
lines 42-52): a dead token (or a number that was never issued) is a no-op;
otherwise mark it dead, decrement the count and clear the snapshot when the
count reaches zero. -/
def unlockStep (s : Locker) (tok : Nat) : Locker :=
  if tok ∈ s.dead ∨ s.issued ≤ tok then s
  else
    let c := s.lockCount - 1
    { lockCount := c,
      override := if c = 0 then none else s.override,
      issued := s.issued,
      dead := tok :: s.dead }

/-- `lock()` applied `n` times in a row from the initial state, all while the
live location is `live`. -/
def lockN (live : Location) : Nat → Option Locker
  | 0 => some lockerInit
  | n + 1 => (lockN live n).bind (fun s => (lockStep live s).map (fun r => r.2))

/-- The locker state after `n` successful lock calls. -/
def lockedState (live : Location) (n : Nat) : Locker :=
  { lockCount := n, override := some live, issued := n, dead := [] }

/-- What descendants of the locker see: the frozen snapshot while locked,
the live location otherwise (`locationOverride || location`). -/
def visibleLocation (s : Locker) (live : Location) : Location :=
  s.override.getD live

/-
  The stack router transition logic (src/stack-router.tsx).  Route children
  are modelled as the flattened list of route elements (Fragments are
  traversed transparently by getActiveRoute); a route group is identified by
  its position in that list, which models JS reference identity of the
  matched element.
-/

/-- A route element among the stack router's children: its optional path
prop, the `exact` flag, and whether it is a RouteGroup element. -/
structure RouteDef where
  path : Option String
  exact : Bool
  isGroup : Bool
deriving DecidableEq

/-- One character sequence starts with another. -/
def listIsPref : List Char → List Char → Bool
  | [], _ => true
  | _ :: _, [] => false
  | a :: as, b :: bs => a == b && listIsPref as bs

/-- Model of the external path-pattern matcher (spec section 6 consumed
primitive `match(pattern, pathname, exact)`): exact match is string
equality, non-exact match is segment-wise prefix. -/
def pathMatches (pattern pathname : String) (exact : Bool) : Bool :=
  if exact then pattern == pathname
  else pattern == pathname || pattern == "/"
    || listIsPref (pattern ++ "/").data pathname.data

/-- `routeElementMatchesPath` (stack-router source, lines 9-16): a child
without a path prop matches everything. -/
def routeElementMatchesPath (r : RouteDef) (pathname : String) : Bool :=
  match r.path with
  | none => true
  | some p => pathMatches p pathname r.exact

/-- `getActiveRoute` (stack-router source, lines 169-187): the first child
matching the pathname, as its index (modelling element identity). -/
def getActiveRoute (pathname : String) (children : List RouteDef) : Option Nat :=
  children.findIdx? (fun r => routeElementMatchesPath r pathname)

/-- `getLocationRouteGroup` (stack-router source, lines 199-211): the active
child if it is a RouteGroup, else none. -/
def getLocationRouteGroup (l : Location) (children : List RouteDef) : Option Nat :=
  (getActiveRoute l.pathname children).bind
    (fun i => if ((children.getD i ⟨none, false, false⟩).isGroup) then some i else none)

/-- `areLocationsEqual` (stack-router source, lines 49-52). -/
def areLocationsEqual (a b : Location) : Bool :=
  a.pathname == b.pathname && a.search == b.search

/-- `areLocationsInSameGroup` (stack-router source, lines 189-197).  Note the
source computes `groupA` from its second argument. -/
def areLocationsInSameGroup (a b : Location) (children : List RouteDef) : Bool :=
  areLocationsEqual a b ||
    (let gA := getLocationRouteGroup b children
     gA.isSome && gA == getLocationRouteGroup a children)

/-- `isInRouteGroup` (stack-router source, lines 149-151): whether the
location resolves to any route group at all. -/
def isInRouteGroup (l : Location) (children : List RouteDef) : Bool :=
  (getLocationRouteGroup l children).isSome

/-- The history action accompanying a location change. -/
inductive HistAction where
  | push
  | pop
  | replace
deriving DecidableEq

/-- `newLocation.state?.transition ?? (action !== REPLACE)` followed by the
truthiness test of `if (!shouldTransition)` (stack-router source, line 79):
a nullish transition field falls back to "not a replace". -/
def shouldTransitionFlag (newLoc : Location) (action : HistAction) : Bool :=
  match statePrimLookup newLoc.state "transition" with
  | Prim.undef => action != HistAction.replace
  | Prim.null => action != HistAction.replace
  | v => primTruthy v

/-- `isNextPage` (stack-router source, lines 213-219): backward when the
previous location's `previousLoc` key equals the incoming key. -/
def isNextPageFn (fromLoc : Option Location) (toLoc : Location) : Bool :=
  match fromLoc with
  | none => false
  | some f =>
    !(match f.state.bind (fun s => s.previousLoc) with
      | some pl => pl.key == toLoc.key
      | none => false)

/-- The component state of StackRouterImpl (stack-router source,
lines 33-47). -/
structure SRState where
  isNextPage : Bool
  renderPreviousData : Bool
  previousLocation : Option Location
  keyOverride : Option String
  previousKey : Option String
  oldPropsLocation : Option Location
  fromLoc : Option Location
deriving DecidableEq

/-- The initial StackRouterImpl state (stack-router source, lines 56-68). -/
def srInit : SRState :=
  { isNextPage := false, renderPreviousData := false, previousLocation := none,
    keyOverride := none, previousKey := none, oldPropsLocation := none, fromLoc := none }

/-- `getDerivedStateFromProps` (stack-router source, lines 70-105), with the
returned partial update already merged into the state (returning null leaves
the state unchanged). -/
def getDerivedStateFromProps (children : List RouteDef) (newLoc : Location)
    (action : HistAction) (s : SRState) : SRState :=
  let shouldTransition := shouldTransitionFlag newLoc action
  if !shouldTransition then
    { s with
      keyOverride := some (match s.keyOverride with
        | some k => k
        | none =>
          match s.oldPropsLocation with
          | some o => o.key
          | none => newLoc.key),
      oldPropsLocation := some newLoc }
  else if s.oldPropsLocation.isNone
      || !(areLocationsInSameGroup newLoc (s.oldPropsLocation.getD newLoc) children) then
    { isNextPage := isNextPageFn s.oldPropsLocation newLoc,
      renderPreviousData := s.oldPropsLocation.isSome,
      previousLocation := s.oldPropsLocation,
      previousKey := s.keyOverride,
      oldPropsLocation := some newLoc,
      keyOverride := some newLoc.key,
      fromLoc := s.oldPropsLocation }
  else s

/-- The `shouldAnimate` computation of `render` (stack-router source,
lines 156-159): animate only when a `from` location is recorded and NOT both
the `from` location and the incoming props location sit inside route groups
(any groups, not necessarily the same one). -/
def shouldAnimateFn (s : SRState) (propsLoc : Location) (children : List RouteDef) : Bool :=
  s.fromLoc.isSome &&
    !((match s.fromLoc with
       | some f => isInRouteGroup f children
       | none => false)
      && isInRouteGroup propsLoc children)

/-- The key the rendered CSSTransition receives (stack-router source,
lines 154-155). -/
def renderedKey (s : SRState) : Option String :=
  if s.renderPreviousData then s.previousKey else s.keyOverride

/-
  Concrete fixtures used by counterexamples and witnesses.
-/

/-- A keyed entry with no state. -/
def entA : Location := ⟨"/a", "", "", "k1", none⟩

/-- Entry pushed on top of entA, carrying its backlink. -/
def entB : Location := ⟨"/b", "", "", "k2", some ⟨[], some (prevLocSnapshot entA)⟩⟩

/-- Entry pushed on top of entB, carrying its backlink. -/
def entC : Location := ⟨"/c", "", "", "k3", some ⟨[], some (prevLocSnapshot entB)⟩⟩

/-- The three entry chain A(k1), B(k2), C(k3) with C active. -/
def chain3 : History := ⟨[entB, entA], entC, []⟩

/-- A single-entry history with no backlink. -/
def soloHist : History := ⟨[], entA, []⟩

/-- A fresh entry to push. -/
def entX : Location := ⟨"/x", "", "", "kx", none⟩

/-- A single-entry history whose only entry carries a dangling backlink to an
entry that is no longer in the native stack. -/
def danglingHist : History :=
  ⟨[], ⟨"/a", "", "", "k1", some ⟨[], some ⟨"/gone", "kg", none, none⟩⟩⟩, []⟩

/-- Chain with a duplicated key: the oldest entry and the active entry both
have key k1. -/
def dupTail : Location := ⟨"/a", "", "", "k1", none⟩

/-- Middle entry of the duplicated-key chain. -/
def dupMid : Location := ⟨"/b", "", "", "k2", some ⟨[], some (prevLocSnapshot dupTail)⟩⟩

/-- Active entry of the duplicated-key chain, sharing key k1 with dupTail. -/
def dupTop : Location := ⟨"/c", "", "", "k1", some ⟨[], some (prevLocSnapshot dupMid)⟩⟩

/-- The duplicated-key history. -/
def dupHist : History := ⟨[dupMid, dupTail], dupTop, []⟩

/-- A previous location with a non-empty search and hash. -/
def trkLastLoc : Location := ⟨"/a", "?q=1", "#h", "k1", some ⟨[("x", Prim.num 1)], none⟩⟩

/-
  C2: the push wrapper's previousLoc.
-/

/-- C2 counterexample: the claim says the pushed entry's previousLoc is
exactly the pair (pathname, key) of the predecessor with no other fields, but
the wrapper spreads the whole previous location, so its search and hash
properties are present in the snapshot as well. -/
theorem pushWrapper_snapshot_not_minimal :
    (stateOfPushArgs (wrappedPushArgs trkLastLoc (PushArgs.strPath "/b" none))).bind
        (fun s => s.previousLoc)
      = some ⟨"/a", "k1", some "?q=1", some "#h"⟩
    ∧ some (⟨"/a", "k1", some "?q=1", some "#h"⟩ : PrevLoc)
        ≠ some (⟨"/a", "k1", none, none⟩ : PrevLoc) := by
  exact ⟨rfl, by decide⟩

/-- C2 amended: for every push through the wrapper, in either argument shape,
the created entry's state carries previousLoc equal to the whole previous
location with its state dropped: pathname and key are copied, and the search
and hash properties are copied as well; the caller's own state fields are
kept and any caller-supplied previousLoc is overridden. -/
theorem pushWrapper_previousLoc (l : Location) (a : PushArgs) :
    (stateOfPushArgs (wrappedPushArgs l a)).bind (fun s => s.previousLoc)
      = some (prevLocSnapshot l)
    ∧ (stateOfPushArgs (wrappedPushArgs l a)).map (fun s => s.fields)
      = some (((stateOfPushArgs a).map (fun s => s.fields)).getD [])
    ∧ (prevLocSnapshot l).pathname = l.pathname
    ∧ (prevLocSnapshot l).key = l.key
    ∧ (prevLocSnapshot l).search = some l.search
    ∧ (prevLocSnapshot l).hash = some l.hash := by
  cases a <;> simp [wrappedPushArgs, stateOfPushArgs, prevLocSnapshot]

/-
  C7: the replace wrapper's previousLoc.
-/

/-- C7: for every replace through the wrapper, the created entry's
previousLoc is the active entry's backlink when it has one (forwarded
unchanged, overriding any caller-supplied value), and otherwise exactly what
the caller passed (the wrapper adds nothing of its own). -/
theorem replaceWrapper_previousLoc (l : Location) (a : PushArgs) :
    (stateOfPushArgs (wrappedReplaceArgs l a)).bind (fun s => s.previousLoc)
      = ((l.state.bind (fun s => s.previousLoc)).orElse
          (fun _ => (stateOfPushArgs a).bind (fun s => s.previousLoc))) := by
  cases hl : l.state.bind (fun s => s.previousLoc) <;> cases a <;>
    simp [wrappedReplaceArgs, stateOfPushArgs, hl, Option.orElse]

/-
  C6: locationPartialMatches.
-/

/-- The location used in the C6 counterexample. -/
def c6Loc : Location := ⟨"/a", "", "", "x", none⟩

/-- The partial with a present empty-string key used in the C6
counterexample. -/
def c6Query : LocQuery := ⟨some "", none, none, none, none⟩

/-- C6 counterexample: a present empty-string key is falsy in JS, so the
source skips the key comparison and matches, while the claimed
characterization requires the present key to equal the location key. -/
theorem locationPartialMatches_emptyKey :
    locationPartialMatches c6Loc c6Query = true
    ∧ locationPartialMatchesClaimed c6Loc c6Query = false := by
  exact ⟨rfl, rfl⟩

/-- C6 amended: locationPartialMatches returns true iff a present non-empty
key equals the location key exactly, a present pathname equals the location
pathname exactly, and every key present in the partial state has a value
strict-equal to the corresponding value of the location state (absent keys
are wildcards); search and hash are never consulted. -/
theorem locationPartialMatches_spec (l : Location) (q : LocQuery) :
    locationPartialMatches l q = locationPartialMatchesAmended l q := by
  rcases q with ⟨qk, qp, qs, qh, qst⟩
  cases qk with
  | none =>
    cases qp with
    | none => rfl
    | some p =>
      cases hp : (p == l.pathname) <;>
        simp [locationPartialMatches, locationPartialMatchesAmended, hp]
  | some k =>
    cases qp with
    | none =>
      cases hke : (k == "") <;> cases hk2 : (l.key == k) <;>
        simp [locationPartialMatches, locationPartialMatchesAmended, hke, hk2]
    | some p =>
      cases hke : (k == "") <;> cases hk2 : (l.key == k) <;>
        cases hp : (p == l.pathname) <;>
        simp [locationPartialMatches, locationPartialMatchesAmended, hke, hk2, hp]

/-
  C9: goBackAsync with preventLeavingApp.
-/

/-- C9 counterexample: an active entry whose state carries a previousLoc even
though the native stack has no preceding entry (a dangling backlink, for
example after the browser dropped older entries).  The guarded goBackAsync
issues a goBack whose notification never arrives, so it neither moves back
one step nor resolves true. -/
theorem goBackAsync_dangling_backlink :
    hasPrevLoc danglingHist.cur = true
    ∧ (goBackAsync danglingHist true).2 = none := by
  exact ⟨rfl, rfl⟩

/-- C9 amended: goBackAsync(true) on an active entry without previousLoc
performs no mutation (empty trace, history unchanged) and resolves false; on
an active entry with a previousLoc and a preceding native entry it moves back
exactly one step and resolves true. -/
theorem goBackAsync_guarded_spec :
    (∀ h : History, hasPrevLoc h.cur = false →
      goBackAsync h true = ([], some (false, h)))
    ∧ (∀ (h : History) (p : Location) (rest : List Location),
        hasPrevLoc h.cur = true → h.back = p :: rest →
        goBackAsync h true = ([NavEvent.mutation], some (true, ⟨rest, p, h.cur :: h.fwd⟩))) := by
  constructor
  · intro h hp
    simp [goBackAsync, hp]
  · intro h p rest hp hb
    simp [goBackAsync, hp, hb]

/-- C9 witness: both parts of goBackAsync_guarded_spec applied at concrete
histories. -/
theorem goBackAsync_guarded_spec_witness :
    goBackAsync soloHist true = ([], some (false, soloHist))
    ∧ goBackAsync chain3 true = ([NavEvent.mutation], some (true, ⟨[entA], entB, [entC]⟩)) := by
  exact ⟨goBackAsync_guarded_spec.1 soloHist (by decide),
    goBackAsync_guarded_spec.2 chain3 entB [entA] (by decide) rfl⟩

/-
  C4 and C10: the dead exhaustion branch of goBackUntil.
-/

/-- The unguarded goBackAsync used by goBackUntilImpl never resolves false:
whenever it resolves at all it resolves true, so the source's
`if (!success)` exhaustion branch can never run. -/
theorem goBackAsync_unguarded_true (h : History) (r : Bool × History)
    (he : (goBackAsync h false).2 = some r) : r.1 = true := by
  unfold goBackAsync at he
  cases hb : h.back with
  | nil => rw [hb] at he; simp at he
  | cons p rest =>
    rw [hb] at he
    simp at he
    rw [← he]

/-- The target used in the C4 failing input. -/
def c4Target : LocQuery := ⟨none, some "/b", none, none, none⟩

/-- The fallback used in the C4 failing input. -/
def c4Fallback : LocQuery := ⟨none, some "/x", none, none, none⟩

/-- C4: at the failing input (a single-entry history not matching the
target, with a fallback supplied) goBackUntil never resolves: instead of
rewriting the oldest entry with the fallback and resolving, it awaits a
goBack notification that never arrives, because the exhaustion branch is
unreachable (goBackAsync_unguarded_true). -/
theorem goBackUntil_no_exhaustion_rewrite :
    (goBackUntil soloHist (LocTarget.query c4Target) (some c4Fallback)).2 = none := by
  rfl

/-- C10: at the failing input (a single-entry history, a predicate target
that never matches, and no fallback) goBackUntil never resolves, so the
default fallback substitution never runs; the defaulting logic itself (dead
code, transcribed as goBackUntilExhausted) would indeed replace in place
with pathname "/" as the claim describes. -/
theorem goBackUntil_default_fallback_dead :
    (goBackUntil soloHist (LocTarget.pred (fun _ => false)) none).2 = none
    ∧ goBackUntilExhausted soloHist (LocTarget.pred (fun _ => false)) none
      = replaceNative soloHist (locationOfQuery ⟨none, some "/", none, none, none⟩) := by
  exact ⟨rfl, rfl⟩

/-
  C1: which facade operations run under the navigation lock.
-/

/-- Lock events are absent from an all-mutation trace. -/
theorem count_lock_of_noLock (evs : List NavEvent) (h : noLockEvents evs = true) :
    evs.count NavEvent.lock = 0 := by
  rw [List.count_eq_zero]
  intro hm
  have := (List.all_eq_true.mp h) _ hm
  simp at this

/-- Unlock events are absent from an all-mutation trace. -/
theorem count_unlock_of_noLock (evs : List NavEvent) (h : noLockEvents evs = true) :
    evs.count NavEvent.unlock = 0 := by
  rw [List.count_eq_zero]
  intro hm
  have := (List.all_eq_true.mp h) _ hm
  simp at this

/-- A lock-free body wrapped by one lock acquisition and its matching release
is lock-spanning. -/
theorem lockSpanning_wrap (evs : List NavEvent) (h : noLockEvents evs = true) :
    lockSpanning ((NavEvent.lock :: evs) ++ [NavEvent.unlock]) = true := by
  have hl := count_lock_of_noLock evs h
  have hu := count_unlock_of_noLock evs h
  have hc1 : ((NavEvent.lock :: evs) ++ [NavEvent.unlock]).count NavEvent.lock = 1 := by
    simp [List.count_append, List.count_cons, hl]
  have hc2 : ((NavEvent.lock :: evs) ++ [NavEvent.unlock]).count NavEvent.unlock = 1 := by
    simp [List.count_append, List.count_cons, hu]
  have hh : ((NavEvent.lock :: evs) ++ [NavEvent.unlock]).head? = some NavEvent.lock := rfl
  have hg : ((NavEvent.lock :: evs) ++ [NavEvent.unlock]).getLast? = some NavEvent.unlock := by
    rw [List.getLast?_concat]
  unfold lockSpanning
  rw [hc1, hc2, hh, hg]
  rfl

/-- `navigate` never changes the resolution of its body. -/
theorem navigate_snd {α : Type} (body : History → List NavEvent × Option α)
    (h : History) : (navigate body h).2 = (body h).2 := by
  rcases hb : body h with ⟨evs, r⟩
  unfold navigate
  rw [hb]
  cases r <;> rfl

/-- A completed `navigate` run over a lock-free body is lock-spanning. -/
theorem navigate_lockSpanning {α : Type} (body : History → List NavEvent × Option α)
    (h : History) (hb : noLockEvents (body h).1 = true)
    (hc : (body h).2.isSome = true) :
    lockSpanning (navigate body h).1 = true := by
  rcases hr : body h with ⟨evs, r⟩
  rw [hr] at hb hc
  cases r with
  | none => simp at hc
  | some v =>
    unfold navigate
    rw [hr]
    exact lockSpanning_wrap evs hb

/-- The rewind loop of goBackToKey emits only native mutations. -/
theorem goBackToKeyImplAux_noLock (back : List Location) :
    ∀ (cur : Location) (fwd : List Location) (key : String),
      noLockEvents (goBackToKeyImplAux back cur fwd key).1 = true := by
  induction back with
  | nil =>
    intro cur fwd key
    simp only [goBackToKeyImplAux]
    split
    · rfl
    · split
      · rfl
      · rfl
  | cons p rest ih =>
    intro cur fwd key
    simp only [goBackToKeyImplAux]
    split
    · rfl
    · split
      · rfl
      · have := ih p (cur :: fwd) key
        simp only [noLockEvents, List.all_cons] at this ⊢
        simpa using this

/-- The rewind loop of goBackToMatch emits only native mutations. -/
theorem goBackToMatchImplAux_noLock (back : List Location) :
    ∀ (cur : Location) (fwd : List Location) (m : Location → Bool),
      noLockEvents (goBackToMatchImplAux back cur fwd m).1 = true := by
  induction back with
  | nil =>
    intro cur fwd m
    simp only [goBackToMatchImplAux]
    split
    · rfl
    · split
      · rfl
      · rfl
  | cons p rest ih =>
    intro cur fwd m
    simp only [goBackToMatchImplAux]
    split
    · rfl
    · split
      · rfl
      · have := ih p (cur :: fwd) m
        simp only [noLockEvents, List.all_cons] at this ⊢
        simpa using this

/-- The forward replay loop emits only native mutations. -/
theorem goForwardToKeyImplAux_noLock (fwd : List Location) :
    ∀ (back : List Location) (cur : Location) (key : String),
      noLockEvents (goForwardToKeyImplAux back cur fwd key).1 = true := by
  induction fwd with
  | nil =>
    intro back cur key
    simp only [goForwardToKeyImplAux]
    split
    · rfl
    · rfl
  | cons nxt rest ih =>
    intro back cur key
    simp only [goForwardToKeyImplAux]
    split
    · rfl
    · have := ih (cur :: back) nxt key
      simp only [noLockEvents, List.all_cons] at this ⊢
      simpa using this

/-- The legacy rewind loop emits only native mutations. -/
theorem goBackUntilImplAux_noLock (back : List Location) :
    ∀ (cur : Location) (fwd : List Location) (t : LocTarget) (fb : Option LocQuery),
      noLockEvents (goBackUntilImplAux back cur fwd t fb).1 = true := by
  induction back with
  | nil =>
    intro cur fwd t fb
    simp only [goBackUntilImplAux]
    split
    · rfl
    · rfl
  | cons p rest ih =>
    intro cur fwd t fb
    simp only [goBackUntilImplAux]
    split
    · rfl
    · have := ih p (cur :: fwd) t fb
      simp only [noLockEvents, List.all_cons] at this ⊢
      simpa using this

/-- An appended trace is lock-free exactly when both halves are. -/
theorem noLockEvents_append (a b : List NavEvent) :
    noLockEvents (a ++ b) = (noLockEvents a && noLockEvents b) := by
  simp [noLockEvents, List.all_append]

/-- The body of goBackToKey emits only native mutations. -/
theorem goBackToKeyBody_noLock (key : String) (fb : Option Location) (h : History) :
    noLockEvents (goBackToKeyBody key fb h).1 = true := by
  have h1 : noLockEvents (goBackToKeyImpl h key).1 = true :=
    goBackToKeyImplAux_noLock h.back h.cur h.fwd key
  rcases hr : goBackToKeyImpl h key with ⟨evs, r⟩
  rw [hr] at h1
  unfold goBackToKeyBody
  rw [hr]
  rcases r with _ | ⟨b, h1st⟩
  · exact h1
  · cases b
    · have h2 : noLockEvents (goForwardToKeyImpl h1st h.cur.key).1 = true :=
        goForwardToKeyImplAux_noLock h1st.fwd h1st.back h1st.cur h.cur.key
      dsimp only
      rcases hr2 : goForwardToKeyImpl h1st h.cur.key with ⟨evs2, r2⟩
      rw [hr2] at h2
      rcases r2 with _ | v2
      · simpa [noLockEvents_append] using And.intro h1 h2
      · cases fb
        · simpa [noLockEvents_append] using And.intro h1 h2
        · simp [noLockEvents, List.all_eq_true] at h1 h2
          simp [noLockEvents_append, noLockEvents, List.all_eq_true, h1, h2]
          exact And.intro h1 h2
    · exact h1

/-- The body of goBackToMatch emits only native mutations. -/
theorem goBackToMatchBody_noLock (m : Location → Bool) (fb : Option Location) (h : History) :
    noLockEvents (goBackToMatchBody m fb h).1 = true := by
  have h1 : noLockEvents (goBackToMatchImpl h m).1 = true :=
    goBackToMatchImplAux_noLock h.back h.cur h.fwd m
  rcases hr : goBackToMatchImpl h m with ⟨evs, r⟩
  rw [hr] at h1
  unfold goBackToMatchBody
  rw [hr]
  rcases r with _ | ⟨b, h1st⟩
  · exact h1
  · cases b
    · have h2 : noLockEvents (goForwardToKeyImpl h1st h.cur.key).1 = true :=
        goForwardToKeyImplAux_noLock h1st.fwd h1st.back h1st.cur h.cur.key
      dsimp only
      rcases hr2 : goForwardToKeyImpl h1st h.cur.key with ⟨evs2, r2⟩
      rw [hr2] at h2
      rcases r2 with _ | v2
      · simpa [noLockEvents_append] using And.intro h1 h2
      · cases fb
        · simpa [noLockEvents_append] using And.intro h1 h2
        · simp [noLockEvents, List.all_eq_true] at h1 h2
          simp [noLockEvents_append, noLockEvents, List.all_eq_true, h1, h2]
          exact And.intro h1 h2
    · exact h1

/-- The legacy goBackUntil body emits only native mutations. -/
theorem goBackUntilImpl_noLock (h : History) (t : LocTarget) (fb : Option LocQuery) :
    noLockEvents (goBackUntilImpl h t fb).1 = true :=
  goBackUntilImplAux_noLock h.back h.cur h.fwd t fb

/-- C1 counterexample: the claim puts every public facade operation under one
lock acquisition, but pushAsync is wired through `promisify`, never through
`navigate`: its trace holds no lock acquisition at all, so the lock count is
not strictly positive during its run. -/
theorem pushAsync_not_lockSpanning :
    lockSpanning ((pushAsync soloHist entX).1) = false := by
  rfl

/-- C1 amended: only navigate, goBackUntil, goBackToMatch and goBackToKey run
under one Navigation Lock acquisition spanning their whole duration (the
release being the closure produced by that same acquisition); the primitive
operations goAsync, pushAsync, replaceAsync, goBackAsync and goForwardAsync
perform no lock operation at all. -/
theorem facadeLockDiscipline :
    (∀ (h : History) (n : Int), noLockEvents (goAsync h n).1 = true)
    ∧ (∀ (h : History) (e : Location), noLockEvents (pushAsync h e).1 = true)
    ∧ (∀ (h : History) (e : Location), noLockEvents (replaceAsync h e).1 = true)
    ∧ (∀ (h : History) (b : Bool), noLockEvents (goBackAsync h b).1 = true)
    ∧ (∀ h : History, noLockEvents (goForwardAsync h).1 = true)
    ∧ (∀ (body : History → List NavEvent × Option (Bool × History)) (h : History),
        noLockEvents (body h).1 = true → (body h).2.isSome = true →
        lockSpanning (navigate body h).1 = true)
    ∧ (∀ (h : History) (key : String) (fb : Option Location),
        (goBackToKey h key fb).2.isSome = true →
        lockSpanning (goBackToKey h key fb).1 = true)
    ∧ (∀ (h : History) (m : Location → Bool) (fb : Option Location),
        (goBackToMatch h m fb).2.isSome = true →
        lockSpanning (goBackToMatch h m fb).1 = true)
    ∧ (∀ (h : History) (t : LocTarget) (fb : Option LocQuery),
        (goBackUntil h t fb).2.isSome = true →
        lockSpanning (goBackUntil h t fb).1 = true) := by
  refine ⟨?_, ?_, ?_, ?_, ?_, ?_, ?_, ?_, ?_⟩
  · intro h n; rfl
  · intro h e; rfl
  · intro h e; rfl
  · intro h b
    unfold goBackAsync
    split
    · rfl
    · cases h.back <;> rfl
  · intro h
    unfold goForwardAsync
    cases h.fwd <;> rfl
  · intro body h hb hc
    exact navigate_lockSpanning body h hb hc
  · intro h key fb hc
    unfold goBackToKey at hc ⊢
    rw [navigate_snd] at hc
    exact navigate_lockSpanning _ h (goBackToKeyBody_noLock key fb h) hc
  · intro h m fb hc
    unfold goBackToMatch at hc ⊢
    rw [navigate_snd] at hc
    exact navigate_lockSpanning _ h (goBackToMatchBody_noLock m fb h) hc
  · intro h t fb hc
    unfold goBackUntil at hc ⊢
    rw [navigate_snd] at hc
    exact navigate_lockSpanning _ h (goBackUntilImpl_noLock h t fb) hc

/-- C1 witness: the lock-spanning conjunct of facadeLockDiscipline applied to
goBackToKey on a concrete completed run. -/
theorem facadeLockDiscipline_witness :
    lockSpanning ((goBackToKey soloHist "zz" none).1) = true := by
  exact facadeLockDiscipline.2.2.2.2.2.2.1 soloHist "zz" none (by rfl)

/-
  C3: the outcome guarantee of goBackToKey and goBackToMatch.
-/

/-- If some guarded-reachable state matches, the rewind loop resolves true at
a matching reachable state. -/
theorem matchImplAux_found (back : List Location) :
    ∀ (cur : Location) (fwd : List Location) (m : Location → Bool),
      (∃ s ∈ backStatesAux back cur fwd, m s.cur = true) →
      ∃ s ∈ backStatesAux back cur fwd, m s.cur = true ∧
        (goBackToMatchImplAux back cur fwd m).2 = some (true, s) := by
  induction back with
  | nil =>
    intro cur fwd m hex
    rcases hex with ⟨s, hs, hm⟩
    simp only [backStatesAux, List.mem_singleton] at hs
    subst hs
    simp only [History] at hm
    refine ⟨⟨[], cur, fwd⟩, by simp [backStatesAux], hm, ?_⟩
    simp [goBackToMatchImplAux, hm]
  | cons p rest ih =>
    intro cur fwd m hex
    by_cases hm : m cur = true
    · exact ⟨⟨p :: rest, cur, fwd⟩, by simp [backStatesAux], hm,
        by simp [goBackToMatchImplAux, hm]⟩
    · have hmf : m cur = false := by
        simpa using hm
      rcases hex with ⟨s, hs, hsm⟩
      have hguard : hasPrevLoc cur = true := by
        by_contra hg
        have hg' : hasPrevLoc cur = false := by simpa using hg
        simp [backStatesAux, hg'] at hs
        subst hs
        rw [hsm] at hmf
        exact Bool.true_eq_false.mp hmf
      have hs' : s ∈ backStatesAux rest p (cur :: fwd) := by
        simp [backStatesAux, hguard] at hs
        rcases hs with h1 | h2
        · subst h1
          rw [hsm] at hmf
          exact absurd hmf (by simp)
        · exact h2
      obtain ⟨s2, hs2mem, hs2m, hs2eq⟩ := ih p (cur :: fwd) m ⟨s, hs', hsm⟩
      refine ⟨s2, ?_, hs2m, ?_⟩
      · simp [backStatesAux, hguard]
        right
        exact hs2mem
      · simp only [goBackToMatchImplAux, hmf, hguard]
        simpa using hs2eq

/-- If no guarded-reachable state matches and the oldest native entry carries
no backlink, the rewind loop resolves false, either still at the start or at
a state whose passed-over entries reassemble the original back list. -/
theorem matchImplAux_nomatch (back : List Location) :
    ∀ (cur : Location) (fwd : List Location) (m : Location → Bool),
      (∀ s ∈ backStatesAux back cur fwd, m s.cur = false) →
      hasPrevLoc (back.getLastD cur) = false →
      ((goBackToMatchImplAux back cur fwd m).2 = some (false, ⟨back, cur, fwd⟩)
       ∨ ∃ (mid : List Location) (c : Location) (b : List Location),
           (goBackToMatchImplAux back cur fwd m).2
             = some (false, ⟨b, c, mid ++ cur :: fwd⟩)
           ∧ mid.reverse ++ c :: b = back) := by
  induction back with
  | nil =>
    intro cur fwd m hall hbot
    have hm : m cur = false := hall ⟨[], cur, fwd⟩ (by simp [backStatesAux])
    left
    simp only [List.getLastD_nil] at hbot
    simp [goBackToMatchImplAux, hm, hbot]
  | cons p rest ih =>
    intro cur fwd m hall hbot
    have hm : m cur = false := hall ⟨p :: rest, cur, fwd⟩ (by simp [backStatesAux])
    cases hg : hasPrevLoc cur with
    | false =>
      left
      simp [goBackToMatchImplAux, hm, hg]
    | true =>
      have hall' : ∀ s ∈ backStatesAux rest p (cur :: fwd), m s.cur = false := by
        intro s hs
        exact hall s (by simp [backStatesAux, hg]; right; exact hs)
      have hbot' : hasPrevLoc (rest.getLastD p) = false := by
        rw [← List.getLastD_cons]
        exact hbot
      right
      rcases ih p (cur :: fwd) m hall' hbot' with heq | ⟨mid, c, b, heq, hshape⟩
      · refine ⟨[], p, rest, ?_, by simp⟩
        simp only [goBackToMatchImplAux, hm, hg]
        simpa using heq
      · refine ⟨mid ++ [p], c, b, ?_, ?_⟩
        · simp only [goBackToMatchImplAux, hm, hg]
          simp only [List.append_assoc, List.singleton_append]
          simpa using heq
        · simp only [List.reverse_append, List.reverse_singleton, List.singleton_append,
            List.cons_append, List.nil_append]
          rw [hshape]
  -- end

/-- Replaying forward when already at the sought key is immediate. -/
theorem forwardReplay_here (b : List Location) (c : Location) (f : List Location) :
    (goForwardToKeyImplAux b c f c.key).2 = some (true, ⟨b, c, f⟩) := by
  cases f with
  | nil => simp [goForwardToKeyImplAux]
  | cons x xs => simp [goForwardToKeyImplAux]

/-- Replaying forward over the passed entries restores the position whose key
is sought, reassembling exactly the stack that was rewound, provided none of
the passed entries shares the sought key. -/
theorem forwardReplay (mid : List Location) :
    ∀ (b : List Location) (c cur0 : Location) (f : List Location),
      (c.key == cur0.key) = false →
      (∀ l ∈ mid, (l.key == cur0.key) = false) →
      (goForwardToKeyImplAux b c (mid ++ cur0 :: f) cur0.key).2
        = some (true, ⟨mid.reverse ++ c :: b, cur0, f⟩) := by
  induction mid with
  | nil =>
    intro b c cur0 f hc _
    simp only [List.nil_append]
    simp only [goForwardToKeyImplAux, hc]
    simpa using forwardReplay_here (c :: b) cur0 f
  | cons q mid' ih =>
    intro b c cur0 f hc hmid
    have hq : (q.key == cur0.key) = false := hmid q (by simp)
    have hmid' : ∀ l ∈ mid', (l.key == cur0.key) = false := by
      intro l hl
      exact hmid l (by simp [hl])
    have := ih (c :: b) q cur0 f hq hmid'
    simp only [goForwardToKeyImplAux, hc, List.cons_append]
    simp only [List.reverse_cons, List.append_assoc, List.singleton_append] at this ⊢
    simpa using this

/-- The key rewind loop is the matcher rewind loop at the key matcher. -/
theorem keyImplAux_eq (back : List Location) :
    ∀ (cur : Location) (fwd : List Location) (key : String),
      goBackToKeyImplAux back cur fwd key
        = goBackToMatchImplAux back cur fwd (fun l => l.key == key) := by
  induction back with
  | nil =>
    intro cur fwd key
    rfl
  | cons p rest ih =>
    intro cur fwd key
    simp only [goBackToKeyImplAux, goBackToMatchImplAux, ih p (cur :: fwd) key]

/-- The found branch of goBackToMatch: resolves true at a reachable matching
state. -/
theorem goBackToMatch_found (h : History) (m : Location → Bool) (fb : Option Location)
    (hex : ∃ s ∈ backStates h, m s.cur = true) :
    ∃ s ∈ backStates h, m s.cur = true ∧ (goBackToMatch h m fb).2 = some (true, s) := by
  obtain ⟨s, hmem, hm, heq⟩ := matchImplAux_found h.back h.cur h.fwd m hex
  refine ⟨s, hmem, hm, ?_⟩
  unfold goBackToMatch
  rw [navigate_snd]
  unfold goBackToMatchBody
  rcases hr : goBackToMatchImpl h m with ⟨evs, r⟩
  have heq' : (goBackToMatchImpl h m).2 = some (true, s) := heq
  rw [hr] at heq'
  simp only at heq'
  rw [heq']

/-- The exhausted branch of goBackToMatch: with no reachable match, a clean
bottom entry and no duplicated starting key, the operation restores the
starting stack and pushes the fallback if one was given, resolving false. -/
theorem goBackToMatch_notfound (h : History) (m : Location → Bool) (fb : Option Location)
    (hall : ∀ s ∈ backStates h, m s.cur = false)
    (hbot : hasPrevLoc (bottomEntry h) = false)
    (hkeys : ∀ l ∈ h.back, (l.key == h.cur.key) = false) :
    (goBackToMatch h m fb).2 = some (false, applyFallback h fb) := by
  rcases h with ⟨bk, cu, fw⟩
  have hall' : ∀ s ∈ backStatesAux bk cu fw, m s.cur = false := hall
  have hbot' : hasPrevLoc (bk.getLastD cu) = false := hbot
  unfold goBackToMatch
  rw [navigate_snd]
  unfold goBackToMatchBody
  rcases matchImplAux_nomatch bk cu fw m hall' hbot' with heq | ⟨mid, c, b, heq, hshape⟩
  · rcases hr : goBackToMatchImpl ⟨bk, cu, fw⟩ m with ⟨evs, r⟩
    have heq' : (goBackToMatchImpl ⟨bk, cu, fw⟩ m).2
        = some (false, ⟨bk, cu, fw⟩) := heq
    rw [hr] at heq'
    simp only at heq'
    rw [heq']
    dsimp only
    rcases hr2 : goForwardToKeyImpl ⟨bk, cu, fw⟩ (⟨bk, cu, fw⟩ : History).cur.key
      with ⟨evs2, r2⟩
    have hfwd : (goForwardToKeyImpl ⟨bk, cu, fw⟩ (⟨bk, cu, fw⟩ : History).cur.key).2
        = some (true, ⟨bk, cu, fw⟩) := forwardReplay_here bk cu fw
    rw [hr2] at hfwd
    simp only at hfwd
    rw [hfwd]
    cases fb <;> rfl
  · rcases hr : goBackToMatchImpl ⟨bk, cu, fw⟩ m with ⟨evs, r⟩
    have heq' : (goBackToMatchImpl ⟨bk, cu, fw⟩ m).2
        = some (false, ⟨b, c, mid ++ cu :: fw⟩) := heq
    rw [hr] at heq'
    simp only at heq'
    rw [heq']
    dsimp only
    have hcmem : c ∈ bk := by
      rw [← hshape]
      simp
    have hmidmem : ∀ l ∈ mid, l ∈ bk := by
      intro l hl
      rw [← hshape]
      simp [hl]
    have hckey : (c.key == cu.key) = false := hkeys c hcmem
    have hmidkey : ∀ l ∈ mid, (l.key == cu.key) = false := fun l hl =>
      hkeys l (hmidmem l hl)
    rcases hr2 : goForwardToKeyImpl ⟨b, c, mid ++ cu :: fw⟩
        (⟨bk, cu, fw⟩ : History).cur.key with ⟨evs2, r2⟩
    have hfwd : (goForwardToKeyImpl ⟨b, c, mid ++ cu :: fw⟩
        (⟨bk, cu, fw⟩ : History).cur.key).2 = some (true, ⟨bk, cu, fw⟩) := by
      have := forwardReplay mid b c cu fw hckey hmidkey
      rw [hshape] at this
      exact this
    rw [hr2] at hfwd
    simp only at hfwd
    rw [hfwd]
    cases fb <;> rfl

/-- goBackToKey is goBackToMatch at the key matcher. -/
theorem goBackToKey_eq_goBackToMatch (h : History) (key : String) (fb : Option Location) :
    goBackToKey h key fb = goBackToMatch h (fun l => l.key == key) fb := by
  unfold goBackToKey goBackToMatch navigate goBackToKeyBody goBackToMatchBody
    goBackToKeyImpl goBackToMatchImpl
  rw [keyImplAux_eq]

/-- C3 counterexample: two concrete violations of the claim as stated over
every starting stack.  First, a duplicated starting key: on the chain
A(k1), B(k2), C(k1) with no reachable match, the forward replay stops at the
oldest entry (whose key equals the starting key) and the operation resolves
false stranded there, not at the starting entry and with no fallback pushed.
Second, a dangling backlink at the bottom of the stack: the guarded rewind
issues a goBack whose notification never arrives, so the operation never
resolves instead of resolving false at the restored start. -/
theorem goBackToKey_outcome_violations :
    ((goBackToKey dupHist "zz" none).2 = some (false, ⟨[], dupTail, [dupMid, dupTop]⟩)
      ∧ (⟨[], dupTail, [dupMid, dupTop]⟩ : History) ≠ dupHist
      ∧ (∀ s ∈ backStates dupHist, s.cur.key ≠ "zz"))
    ∧ (goBackToKey danglingHist "zz" none).2 = none := by
  refine ⟨⟨?_, ?_, ?_⟩, ?_⟩
  · rfl
  · decide
  · decide
  · rfl

/-- C3 amended: for every starting stack whose oldest native entry carries no
backlink and in which no backward entry shares the starting entry's key, the
outcome guarantee holds: if some state reachable by guarded back-steps has
the sought key (resp. satisfies the matcher), goBackToKey (resp.
goBackToMatch) resolves true with such a reachable state active; otherwise
it resolves false after restoring the starting stack, with exactly one
fallback entry pushed on top when a fallback was supplied. -/
theorem goBackComposite_outcome (h : History) (key : String) (m : Location → Bool)
    (fb : Option Location)
    (hbot : hasPrevLoc (bottomEntry h) = false)
    (hkeys : ∀ l ∈ h.back, l.key ≠ h.cur.key) :
    ((∃ s ∈ backStates h, s.cur.key = key) →
      ∃ s ∈ backStates h, s.cur.key = key ∧ (goBackToKey h key fb).2 = some (true, s))
    ∧ ((∀ s ∈ backStates h, s.cur.key ≠ key) →
      (goBackToKey h key fb).2 = some (false, applyFallback h fb))
    ∧ ((∃ s ∈ backStates h, m s.cur = true) →
      ∃ s ∈ backStates h, m s.cur = true ∧ (goBackToMatch h m fb).2 = some (true, s))
    ∧ ((∀ s ∈ backStates h, m s.cur = false) →
      (goBackToMatch h m fb).2 = some (false, applyFallback h fb)) := by
  have hkeys' : ∀ l ∈ h.back, (l.key == h.cur.key) = false := by
    intro l hl
    simp [hkeys l hl]
  refine ⟨?_, ?_, ?_, ?_⟩
  · intro hex
    rw [goBackToKey_eq_goBackToMatch]
    have hex' : ∃ s ∈ backStates h, (fun l => l.key == key) s.cur = true := by
      obtain ⟨s, hs, hk⟩ := hex
      exact ⟨s, hs, by simp [hk]⟩
    obtain ⟨s, hs, hk, heq⟩ := goBackToMatch_found h (fun l => l.key == key) fb hex'
    exact ⟨s, hs, by simpa using hk, heq⟩
  · intro hall
    rw [goBackToKey_eq_goBackToMatch]
    refine goBackToMatch_notfound h (fun l => l.key == key) fb ?_ hbot hkeys'
    intro s hs
    simp [hall s hs]
  · intro hex
    exact goBackToMatch_found h m fb hex
  · intro hall
    exact goBackToMatch_notfound h m fb hall hbot hkeys'

/-- C3 witness: the amended outcome theorem applied to the concrete chain
A(k1), B(k2), C(k3): seeking k1 resolves true at A; seeking a missing key
with fallback entX resolves false with the chain restored and entX pushed. -/
theorem goBackComposite_outcome_witness :
    (∃ s ∈ backStates chain3, s.cur.key = "k1"
      ∧ (goBackToKey chain3 "k1" none).2 = some (true, s))
    ∧ (goBackToKey chain3 "zz" (some entX)).2
      = some (false, applyFallback chain3 (some entX)) := by
  constructor
  · exact (goBackComposite_outcome chain3 "k1" (fun _ => false) none
      (by decide) (by decide)).1 (by decide)
  · exact (goBackComposite_outcome chain3 "zz" (fun _ => false) (some entX)
      (by decide) (by decide)).2.1 (by decide)

/-
  C5: animation of same-group and different-group transitions.
-/

/-- Route resolution reads only the pathname. -/
theorem getLocationRouteGroup_pathname (la lb : Location) (children : List RouteDef)
    (hp : la.pathname = lb.pathname) :
    getLocationRouteGroup la children = getLocationRouteGroup lb children := by
  unfold getLocationRouteGroup getActiveRoute
  rw [hp]

/-- The route children used in the C5 counterexample: two route groups, a
plain route and a catch-all. -/
def chG : List RouteDef :=
  [⟨some "/g1", false, true⟩, ⟨some "/g2", false, true⟩,
   ⟨some "/f", false, false⟩, ⟨none, false, false⟩]

/-- An ungrouped location. -/
def lF : Location := ⟨"/f", "", "", "kf", none⟩

/-- A location inside group /g1. -/
def lA1 : Location := ⟨"/g1/a", "", "", "ka", none⟩

/-- A second location inside group /g1. -/
def lB1 : Location := ⟨"/g1/b", "", "", "kb", none⟩

/-- A location inside group /g2. -/
def lB2 : Location := ⟨"/g2/b", "", "", "kb2", none⟩

/-- Router state after processing lF from the initial state. -/
def srS1 : SRState := getDerivedStateFromProps chG lF HistAction.push srInit

/-- Router state after processing lF then lA1: oldPropsLocation is lA1 and
the recorded from location is the ungrouped lF. -/
def srS2 : SRState := getDerivedStateFromProps chG lA1 HistAction.push srS1

/-- C5 counterexample: processing the same-group pair (lA1, lB1) from the
reachable state srS2 leaves shouldAnimate true, because the stale from
location lF sits outside the group — refuting "same group is never
animated (shouldAnimate is false)".  Processing the different-group pair
(lA1, lB2) with transition unset and action PUSH yields shouldAnimate false,
because the render check suppresses animation whenever both locations are in
any route groups — refuting "different groups always animate". -/
theorem transitionAnimation_claim_false :
    (srS2.oldPropsLocation = some lA1
      ∧ getLocationRouteGroup lA1 chG = getLocationRouteGroup lB1 chG
      ∧ (getLocationRouteGroup lB1 chG).isSome = true
      ∧ shouldAnimateFn (getDerivedStateFromProps chG lB1 HistAction.push srS2) lB1 chG
        = true)
    ∧ (getLocationRouteGroup lA1 chG ≠ getLocationRouteGroup lB2 chG
      ∧ (getLocationRouteGroup lA1 chG).isSome = true
      ∧ (getLocationRouteGroup lB2 chG).isSome = true
      ∧ statePrimLookup lB2.state "transition" = Prim.undef
      ∧ shouldAnimateFn (getDerivedStateFromProps chG lB2 HistAction.push srS2) lB2 chG
        = false) := by
  refine ⟨⟨?_, ?_, ?_, ?_⟩, ⟨?_, ?_, ?_, ?_, ?_⟩⟩ <;> decide

/-- C5 amended: processing a location pair (la, lb) whose previous location
is la.  If both resolve to the same non-null RouteGroup, the frame is not
animated provided the remembered from location is absent or itself inside a
route group (in particular on any fresh run over just this pair); the stale
from location can otherwise keep shouldAnimate true even though the rendered
key does not change.  If the two resolve to different group values, with
transition unset and action PUSH, the frame is animated exactly when not
both locations sit inside route groups: at least one ungrouped location
animates, while two locations in two different groups are suppressed. -/
theorem transitionAnimation_spec (children : List RouteDef) (s : SRState)
    (la lb : Location) (act : HistAction)
    (hold : s.oldPropsLocation = some la) :
    (getLocationRouteGroup la children = getLocationRouteGroup lb children →
      (getLocationRouteGroup lb children).isSome = true →
      (s.fromLoc = none ∨ ∃ f, s.fromLoc = some f ∧ isInRouteGroup f children = true) →
      shouldAnimateFn (getDerivedStateFromProps children lb act s) lb children = false)
    ∧ (getLocationRouteGroup la children ≠ getLocationRouteGroup lb children →
      statePrimLookup lb.state "transition" = Prim.undef →
      act = HistAction.push →
      shouldAnimateFn (getDerivedStateFromProps children lb act s) lb children
        = !(isInRouteGroup la children && isInRouteGroup lb children)) := by
  constructor
  · intro hgr hsome hfrom
    have hbg : isInRouteGroup lb children = true := by
      simpa [isInRouteGroup] using hsome
    have hsame : areLocationsInSameGroup lb la children = true := by
      unfold areLocationsInSameGroup
      rw [← hgr]
      have hsome' : (getLocationRouteGroup la children).isSome = true := by
        rw [hgr]
        exact hsome
      simp [hsome']
    have hfromAnim : ∀ s' : SRState, s'.fromLoc = s.fromLoc →
        shouldAnimateFn s' lb children = false := by
      intro s' hs'
      unfold shouldAnimateFn
      rw [hs']
      rcases hfrom with hnone | ⟨f, hf, hfg⟩
      · rw [hnone]
        rfl
      · rw [hf]
        simp [hfg, hbg]
    unfold getDerivedStateFromProps
    cases hst : shouldTransitionFlag lb act with
    | false =>
      simp only [hst, Bool.not_false, if_true]
      exact hfromAnim _ rfl
    | true =>
      simp only [hst, Bool.not_true, if_false, hold]
      have hnone : (some la).isNone = false := rfl
      simp only [hnone, Option.getD_some, hsame, Bool.not_true, Bool.false_or,
        Bool.or_self, if_false]
      exact hfromAnim _ rfl
  · intro hne htr hact
    subst hact
    have hst : shouldTransitionFlag lb HistAction.push = true := by
      unfold shouldTransitionFlag
      rw [htr]
      rfl
    have hpne : (lb.pathname == la.pathname) = false := by
      by_contra hb
      have hpe : lb.pathname = la.pathname := by
        simpa using hb
      exact hne (getLocationRouteGroup_pathname la lb children hpe.symm)
    have hsame : areLocationsInSameGroup lb la children = false := by
      unfold areLocationsInSameGroup areLocationsEqual
      rw [hpne]
      simp only [Bool.false_and, Bool.false_or]
      cases hga : getLocationRouteGroup la children with
      | none => rfl
      | some i =>
        cases hgb : getLocationRouteGroup lb children with
        | none =>
          simp
        | some j =>
          have hij : ¬ (some i = some j) := by
            rw [← hga, ← hgb]
            exact hne
          simp only [Option.isSome_some, Bool.true_and]
          simpa using hij
    unfold getDerivedStateFromProps
    simp only [hst, Bool.not_true, if_false, hold]
    have hnone : (some la).isNone = false := rfl
    simp only [hnone, Option.getD_some, hsame, Bool.not_false, Bool.false_or,
      Bool.or_true, if_true]
    unfold shouldAnimateFn
    simp only [Option.isSome_some, Bool.true_and]
    rfl

/-- Router state after processing only lA1 from the initial state: a fresh
run whose from location is absent. -/
def srFreshA : SRState := getDerivedStateFromProps chG lA1 HistAction.push srInit

/-- C5 witness: the amended animation theorem applied at concrete pairs: the
same-group pair (lA1, lB1) on a fresh run is not animated; the
group-to-ungrouped pair (lF, lA1) with transition unset under PUSH is
animated (not both grouped); and the different-group pair (lA1, lB2) is
suppressed (both grouped). -/
theorem transitionAnimation_spec_witness :
    shouldAnimateFn (getDerivedStateFromProps chG lB1 HistAction.push srFreshA) lB1 chG = false
    ∧ shouldAnimateFn (getDerivedStateFromProps chG lA1 HistAction.push srS1) lA1 chG
      = !(isInRouteGroup lF chG && isInRouteGroup lA1 chG)
    ∧ shouldAnimateFn (getDerivedStateFromProps chG lB2 HistAction.push srS2) lB2 chG
      = !(isInRouteGroup lA1 chG && isInRouteGroup lB2 chG) := by
  refine ⟨?_, ?_, ?_⟩
  · exact (transitionAnimation_spec chG srFreshA lA1 lB1 HistAction.push (by decide)).1
      (by decide) (by decide) (Or.inl (by decide))
  · exact (transitionAnimation_spec chG srS1 lF lA1 HistAction.push (by decide)).2
      (by decide) (by decide) rfl
  · exact (transitionAnimation_spec chG srS2 lA1 lB2 HistAction.push (by decide)).2
      (by decide) (by decide) rfl

/-
  C8: the location locker.
-/

/-- The locker invariant tied to N issued tokens: the issue counter is N,
dead tokens are distinct issued tokens, the lock count is N minus the dead
tokens, and the snapshot is held exactly while the count is positive. -/
def LockerInv (live : Location) (n : Nat) (s : Locker) : Prop :=
  s.issued = n ∧ s.dead.Nodup ∧ (∀ t ∈ s.dead, t < n)
    ∧ s.lockCount + s.dead.length = n
    ∧ s.override = (if s.lockCount = 0 then none else some live)

/-- The fully locked state satisfies the invariant. -/
theorem lockerInv_lockedState (live : Location) (n : Nat) (hn : 1 ≤ n) :
    LockerInv live n (lockedState live n) := by
  refine ⟨rfl, List.nodup_nil, by simp [lockedState], by simp [lockedState], ?_⟩
  simp only [lockedState]
  rw [if_neg (by omega)]

/-- One unlock call preserves the invariant. -/
theorem lockerInv_unlockStep (live : Location) (n : Nat) (s : Locker) (tok : Nat)
    (h : LockerInv live n s) : LockerInv live n (unlockStep s tok) := by
  obtain ⟨hiss, hnd, hbound, hcount, hov⟩ := h
  unfold unlockStep
  split
  · exact ⟨hiss, hnd, hbound, hcount, hov⟩
  · rename_i hg
    push_neg at hg
    obtain ⟨hdead, hlt⟩ := hg
    rw [hiss] at hlt
    have hlen : s.dead.length < n := by
      have hsub : s.dead.toFinset ⊆ (Finset.range n).erase tok := by
        intro x hx
        rw [List.mem_toFinset] at hx
        rw [Finset.mem_erase, Finset.mem_range]
        exact ⟨fun he => hdead (he ▸ hx), hbound x hx⟩
      have hcard := Finset.card_le_card hsub
      rw [List.toFinset_card_of_nodup hnd] at hcard
      have : ((Finset.range n).erase tok).card < n := by
        rw [Finset.card_erase_of_mem (Finset.mem_range.mpr hlt), Finset.card_range]
        omega
      omega
    have hpos : 1 ≤ s.lockCount := by omega
    refine ⟨hiss, ?_, ?_, ?_, ?_⟩
    · exact List.nodup_cons.mpr ⟨hdead, hnd⟩
    · intro t ht
      rcases List.mem_cons.mp ht with h1 | h2
      · omega
      · exact hbound t h2
    · simp only [List.length_cons]
      omega
    · dsimp only
      by_cases hz : s.lockCount - 1 = 0
      · simp [hz]
      · rw [if_neg hz, if_neg hz]
        rw [hov, if_neg (by omega)]

/-- Folding unlock calls preserves the invariant. -/
theorem lockerInv_foldl (live : Location) (n : Nat) (us : List Nat) :
    ∀ s : Locker, LockerInv live n s → LockerInv live n (us.foldl unlockStep s) := by
  induction us with
  | nil => intro s h; exact h
  | cons u us ih =>
    intro s h
    exact ih (unlockStep s u) (lockerInv_unlockStep live n s u h)

/-- Membership in the dead list after folding unlock calls: a token is dead
afterwards iff it was dead before or it is a valid token occurring in the
unlock sequence. -/
theorem foldl_dead_mem (live : Location) (n : Nat) (us : List Nat) :
    ∀ s : Locker, LockerInv live n s →
      ∀ t, (t ∈ (us.foldl unlockStep s).dead ↔ t ∈ s.dead ∨ (t < n ∧ t ∈ us)) := by
  induction us with
  | nil =>
    intro s _ t
    simp
  | cons u us ih =>
    intro s hinv t
    have hstep := lockerInv_unlockStep live n s u hinv
    have := ih (unlockStep s u) hstep t
    rw [List.foldl_cons, this]
    obtain ⟨hiss, _, _, _, _⟩ := hinv
    constructor
    · intro hmem
      rcases hmem with hmem | ⟨hlt, hin⟩
      · unfold unlockStep at hmem
        split at hmem
        · exact Or.inl hmem
        · rename_i hg
          push_neg at hg
          rcases List.mem_cons.mp hmem with h1 | h2
          · exact Or.inr ⟨by rw [← hiss]; omega, by simp [h1]⟩
          · exact Or.inl h2
      · exact Or.inr ⟨hlt, by simp [hin]⟩
    · intro hmem
      rcases hmem with hmem | ⟨hlt, hin⟩
      · left
        unfold unlockStep
        split
        · exact hmem
        · exact List.mem_cons_of_mem u hmem
      · rcases List.mem_cons.mp hin with h1 | h2
        · subst h1
          unfold unlockStep
          split
          · rename_i hg
            rcases hg with hg | hg
            · exact Or.inl hg
            · rw [hiss] at hg
              omega
          · exact Or.inl (List.mem_cons_self t s.dead)
        · exact Or.inr ⟨hlt, h2⟩

/-- A locker state satisfying the invariant holds no snapshot exactly when
every one of the n tokens is dead. -/
theorem lockerInv_override_none (live : Location) (n : Nat) (s : Locker)
    (hinv : LockerInv live n s) :
    (s.override = none ↔ ∀ t, t < n → t ∈ s.dead) := by
  obtain ⟨hiss, hnd, hbound, hcount, hov⟩ := hinv
  rw [hov]
  constructor
  · intro hz t hlt
    by_cases hc : s.lockCount = 0
    · have hlen : s.dead.length = n := by omega
      have hsub : s.dead.toFinset ⊆ Finset.range n := by
        intro x hx
        rw [List.mem_toFinset] at hx
        exact Finset.mem_range.mpr (hbound x hx)
      have hcards : (Finset.range n).card ≤ s.dead.toFinset.card := by
        rw [List.toFinset_card_of_nodup hnd, hlen, Finset.card_range]
      have heq := Finset.eq_of_subset_of_card_le hsub hcards
      have : t ∈ s.dead.toFinset := by
        rw [heq]
        exact Finset.mem_range.mpr hlt
      exact List.mem_toFinset.mp this
    · rw [if_neg hc] at hz
      exact absurd hz (by simp)
  · intro hall
    have hsub : Finset.range n ⊆ s.dead.toFinset := by
      intro x hx
      rw [List.mem_toFinset]
      exact hall x (Finset.mem_range.mp hx)
    have hcards := Finset.card_le_card hsub
    rw [List.toFinset_card_of_nodup hnd, Finset.card_range] at hcards
    have hc : s.lockCount = 0 := by omega
    rw [if_pos hc]

/-- N successive lock calls from the initial state all succeed and produce
the fully locked state with the snapshot frozen at the first call. -/
theorem lockN_eq (live : Location) (n : Nat) (hn : 1 ≤ n) :
    lockN live n = some (lockedState live n) := by
  induction n with
  | zero => omega
  | succ k ih =>
    by_cases hk : 1 ≤ k
    · have hl := ih hk
      unfold lockN
      rw [hl]
      show (lockStep live (lockedState live k)).map (fun r => r.2)
        = some (lockedState live (k + 1))
      unfold lockStep
      dsimp only [lockedState]
      rw [if_neg (by omega)]
      simp [lockedState]
    · have hk0 : k = 0 := by omega
      subst hk0
      unfold lockN lockN lockStep lockerInit
      simp [lockedState]

/-- Calling one unlock token a second time is a no-op. -/
theorem unlockStep_idem (s : Locker) (tok : Nat) :
    unlockStep (unlockStep s tok) tok = unlockStep s tok := by
  unfold unlockStep
  split
  · rfl
  · rename_i hg
    dsimp only
    rw [if_pos (Or.inl (List.mem_cons_self tok s.dead))]

/-- C8: after N lock calls (N at least 1) the snapshot is frozen at the live
location; running any sequence of unlock-token calls clears it exactly when
all N tokens occur in the sequence (extra calls on a token are no-ops, so
exactly N effective unlocks are needed), and while any token is outstanding
the frozen snapshot stays in place; unlocking the same token twice never has
a second effect. -/
theorem locationLocker_spec (live : Location) (n : Nat) (us : List Nat) (hn : 1 ≤ n) :
    lockN live n = some (lockedState live n)
    ∧ (lockedState live n).override = some live
    ∧ ((us.foldl unlockStep (lockedState live n)).override = none
        ↔ ∀ t, t < n → t ∈ us)
    ∧ ((¬ ∀ t, t < n → t ∈ us) →
        (us.foldl unlockStep (lockedState live n)).override = some live)
    ∧ (∀ (s : Locker) (tok : Nat), unlockStep (unlockStep s tok) tok = unlockStep s tok) := by
  have hinv0 := lockerInv_lockedState live n hn
  have hinvF := lockerInv_foldl live n us (lockedState live n) hinv0
  have hmem := foldl_dead_mem live n us (lockedState live n) hinv0
  have hiff := lockerInv_override_none live n (us.foldl unlockStep (lockedState live n)) hinvF
  refine ⟨lockN_eq live n hn, rfl, ?_, ?_, fun s tok => unlockStep_idem s tok⟩
  · rw [hiff]
    constructor
    · intro hall t hlt
      have := (hmem t).mp (hall t hlt)
      rcases this with hd | ⟨_, hin⟩
      · simp [lockedState] at hd
      · exact hin
    · intro hall t hlt
      exact (hmem t).mpr (Or.inr ⟨hlt, hall t hlt⟩)
  · intro hnall
    obtain ⟨_, _, _, _, hov⟩ := hinvF
    rw [hov]
    rw [if_neg ?_]
    intro hz
    apply hnall
    have : (us.foldl unlockStep (lockedState live n)).override = none := by
      rw [hov, if_pos hz]
    intro t hlt
    have hd := (hiff.mp this) t hlt
    rcases (hmem t).mp hd with h1 | ⟨_, h2⟩
    · simp [lockedState] at h1
    · exact h2

/-- C8 witness: locationLocker_spec applied at N = 2 with the unlock
sequence [1, 0, 0]: all tokens released (the duplicate being a no-op), so
the snapshot clears; and with [1] alone the snapshot stays. -/
theorem locationLocker_spec_witness :
    (([1, 0, 0] : List Nat).foldl unlockStep (lockedState entA 2)).override = none
    ∧ (([1] : List Nat).foldl unlockStep (lockedState entA 2)).override = some entA := by
  constructor
  · exact (locationLocker_spec entA 2 [1, 0, 0] (by decide)).2.2.1.mpr (by decide)
  · exact (locationLocker_spec entA 2 [1] (by decide)).2.2.2.1 (by decide)
